import Mathlib

/-
Shallow embedding of src/src-tauri/src/openai_whisper.rs.

The source has two pieces of behaviour:
  * encode_wav: converts f32 audio samples (mono, 16 kHz) to an in-memory
    WAV file via a hound WavWriter over Cursor<Vec<u8>>;
  * transcribe_with_api: validates inputs, normalizes the URL, builds a
    multipart form, sends one HTTP POST through reqwest and interprets the
    response with serde_json.

Modelling decisions:
  * f32 values are modelled by F32 below: NaN and the infinities are
    explicit constructors, finite values carry an exact rational.  The
    multiply `sample * 32767.0` computes the exact product and rounds it
    to the nearest f32 (round to nearest, ties to even, with the IEEE
    overflow-to-infinity rule), as the hardware does; the special values
    follow the IEEE-754 / Rust semantics literally (NaN propagates
    through multiplication and f32::clamp, and the saturating `as i16`
    cast sends NaN to 0, infinities to the respective bounds).
  * hound's WavWriter over an in-memory Cursor<Vec<u8>> cannot fail: the
    error paths in encode_wav are io errors of an infallible in-memory
    writer, so the embedded encode_wav is total and always returns ok.
    It produces the canonical 44-byte RIFF/WAVE header hound writes for
    16-bit integer PCM, followed by the little-endian sample frames.
  * the network is an oracle argument: a function from the built request
    to a transport outcome.  transcribe_with_api returns the result
    together with the list of requests actually handed to the transport,
    so "performs no network call" is the statement that this list is [].
  * serde_json is modelled with a small JSON value type, a fuel-indexed
    text parser, and field-wise deserializers for the two derive(Deserialize)
    structs of the source (ErrorResponse / TranscriptionResponse).
  * reqwest renders an HTTP status with its numeric code (followed by the
    canonical reason phrase); statusDisplay keeps the numeric code.
-/

/-- Model of a 32-bit float: NaN and infinities are explicit, finite
values are carried as exact rationals. -/
inductive F32 where
  | nan : F32
  | posInf : F32
  | negInf : F32
  | finite : ℚ → F32
deriving DecidableEq

/-- Nearest integer to a rational, ties to the even integer: the
rounding IEEE-754 round-to-nearest-even applies to the scaled
significand. -/
def roundHalfEven (x : ℚ) : ℤ :=
  if x - (⌊x⌋ : ℚ) < 1 / 2 then ⌊x⌋
  else if 1 / 2 < x - (⌊x⌋ : ℚ) then ⌊x⌋ + 1
  else if ⌊x⌋ % 2 = 0 then ⌊x⌋ else ⌊x⌋ + 1

/-- The binary exponent of a positive rational: the e with
2^e ≤ q < 2^(e+1). -/
def ratLog2 (q : ℚ) : ℤ :=
  if 1 ≤ q then (Nat.log2 ⌊q⌋.toNat : ℤ)
  else
    if (2 : ℚ) ^ (-(Nat.log2 ⌊1 / q⌋.toNat : ℤ)) ≤ q then
      -(Nat.log2 ⌊1 / q⌋.toNat : ℤ)
    else
      -(Nat.log2 ⌊1 / q⌋.toNat : ℤ) - 1

/-- Round a positive rational to f32 precision: a 24-bit significand in
the normal range (the significand q * 2^(23-e) lies in [2^23, 2^24) and
is rounded to nearest, ties to even), and the fixed 2^-149 grid below
the normal range.  The result is exact as a rational and may exceed the
finite f32 range; the caller maps that overflow to infinity. -/
def f32RoundPos (q : ℚ) : ℚ :=
  if ratLog2 q < -126 then
    (roundHalfEven (q * (2 : ℚ) ^ (149 : ℤ)) : ℚ) * (2 : ℚ) ^ (-149 : ℤ)
  else
    (roundHalfEven (q * (2 : ℚ) ^ (23 - ratLog2 q)) : ℚ) *
      (2 : ℚ) ^ (ratLog2 q - 23)

/-- The largest finite f32 value, (2^24 - 1) * 2^104. -/
def maxF32 : ℚ := (2 ^ 24 - 1) * 2 ^ 104

/-- Round a rational to the nearest f32, round to nearest, ties to even:
zero stays zero, and a magnitude whose unbounded-exponent rounding
exceeds the largest finite f32 becomes the infinity of its sign, which
is exactly the IEEE round-to-nearest overflow rule. -/
def f32Round (q : ℚ) : F32 :=
  if q = 0 then F32.finite 0
  else if 0 < q then
    if maxF32 < f32RoundPos q then F32.posInf else F32.finite (f32RoundPos q)
  else
    if maxF32 < f32RoundPos (-q) then F32.negInf
    else F32.finite (-(f32RoundPos (-q)))

/-- `sample * 32767.0` from the source, on the F32 model: the finite
product is computed exactly and then rounded to the nearest f32 as the
hardware multiply does; NaN and infinities propagate as in IEEE
multiplication by the positive finite constant 32767.0. -/
def F32.scale32767 : F32 → F32
  | .nan => .nan
  | .posInf => .posInf
  | .negInf => .negInf
  | .finite q => f32Round (q * 32767)

/-- `.clamp(-32768.0, 32767.0)` from the source: Rust f32::clamp returns
min when self < min, max when self > max, self otherwise, and NaN when
self is NaN. -/
def F32.clampPcm : F32 → F32
  | .nan => .nan
  | .posInf => .finite 32767
  | .negInf => .finite (-32768)
  | .finite q => .finite (max (-32768) (min q 32767))

/-- Truncation toward zero of a rational, the rounding used by Rust's
float-to-integer `as` cast on in-range values. -/
def ratTrunc (q : ℚ) : ℤ :=
  if 0 ≤ q then ⌊q⌋ else ⌈q⌉

/-- Rust's `as i16` cast on a float: saturating, truncating toward zero,
NaN maps to 0. -/
def F32.asI16 : F32 → ℤ
  | .nan => 0
  | .posInf => 32767
  | .negInf => -32768
  | .finite q => max (-32768) (min (ratTrunc q) 32767)

/-- `(sample * 32767.0).clamp(-32768.0, 32767.0) as i16` (source line 39). -/
def sampleToI16 (s : F32) : ℤ :=
  s.scale32767.clampPcm.asI16

/-- Two little-endian bytes of a 16-bit unsigned value. -/
def u16le (n : Nat) : List Nat :=
  [n % 256, n / 256 % 256]

/-- Four little-endian bytes of a 32-bit unsigned value. -/
def u32le (n : Nat) : List Nat :=
  [n % 256, n / 2 ^ 8 % 256, n / 2 ^ 16 % 256, n / 2 ^ 24 % 256]

/-- Little-endian two's-complement bytes of an i16 value, as hound's
write_sample emits them. -/
def i16le (v : ℤ) : List Nat :=
  u16le ((v % 65536).toNat)

/-- The canonical 44-byte RIFF/WAVE header hound writes (after finalize)
for 1 channel, 16000 Hz, 16-bit integer PCM with `n` sample frames:
"RIFF", riff chunk size 36 + 2n, "WAVE", "fmt " of size 16 with
format 1 (PCM), 1 channel, rate 16000, byte rate 32000, block align 2,
16 bits per sample, then "data" with data size 2n. -/
def wavHeader (n : Nat) : List Nat :=
  [82, 73, 70, 70] ++ u32le (36 + 2 * n) ++ [87, 65, 86, 69] ++
  [102, 109, 116, 32] ++ u32le 16 ++ u16le 1 ++ u16le 1 ++
  u32le 16000 ++ u32le 32000 ++ u16le 2 ++ u16le 16 ++
  [100, 97, 116, 97] ++ u32le (2 * n)

/-- The PCM data section: the loop of encode_wav, one little-endian
16-bit frame per sample. -/
def pcmData : List F32 → List Nat
  | [] => []
  | s :: rest => i16le (sampleToI16 s) ++ pcmData rest

/-- encode_wav from the source.  The writer is an in-memory
Cursor<Vec<u8>>, whose io operations are infallible, so the three
error paths of the source are unreachable and the result is always ok:
header then frames. -/
def encode_wav (samples : List F32) : Except String (List Nat) :=
  Except.ok (wavHeader samples.length ++ pcmData samples)

theorem wavHeader_length (n : Nat) : (wavHeader n).length = 44 := rfl

theorem i16le_length (v : ℤ) : (i16le v).length = 2 := rfl

theorem pcmData_length (samples : List F32) :
    (pcmData samples).length = 2 * samples.length := by
  induction samples with
  | nil => rfl
  | cons s rest ih =>
      simp [pcmData, i16le, u16le, List.length_cons, ih]
      ring

/-- C1: for every sample sequence of length N (including N = 0),
encode_wav succeeds and returns a byte buffer of exactly 44 + 2*N bytes;
the empty sequence yields exactly a 44-byte buffer. -/
theorem encode_wav_total_length (samples : List F32) :
    ∃ bytes, encode_wav samples = Except.ok bytes ∧
      bytes.length = 44 + 2 * samples.length := by
  refine ⟨wavHeader samples.length ++ pcmData samples, rfl, ?_⟩
  simp [List.length_append, wavHeader_length, pcmData_length]

theorem ratTrunc_le_of_le (q : ℚ) (h : q ≤ 32767) : ratTrunc q ≤ 32767 := by
  rw [ratTrunc]
  split
  · have h2 : ((⌊q⌋ : ℤ) : ℚ) ≤ 32767 := le_trans (Int.floor_le q) h
    exact_mod_cast h2
  · exact Int.ceil_le.mpr (by exact_mod_cast h)

theorem ratTrunc_ge_of_ge (q : ℚ) (h : -32768 ≤ q) : -32768 ≤ ratTrunc q := by
  rw [ratTrunc]
  split
  · have h2 : (0 : ℤ) ≤ ⌊q⌋ := Int.floor_nonneg.mpr (by assumption)
    omega
  · have h2 : (-32768 : ℚ) ≤ ((⌈q⌉ : ℤ) : ℚ) := le_trans h (Int.le_ceil q)
    exact_mod_cast h2


theorem roundHalfEven_ge_floor (x : ℚ) : ⌊x⌋ ≤ roundHalfEven x := by
  unfold roundHalfEven
  split_ifs <;> omega

theorem ratLog2_spec (q : ℚ) (hq : 0 < q) :
    (2 : ℚ) ^ ratLog2 q ≤ q ∧ q < (2 : ℚ) ^ (ratLog2 q + 1) := by
  unfold ratLog2
  by_cases h1 : 1 ≤ q
  · rw [if_pos h1]
    have hfl : (1 : ℤ) ≤ ⌊q⌋ := by exact_mod_cast Int.le_floor.mpr (by exact_mod_cast h1)
    have hn0 : ⌊q⌋.toNat ≠ 0 := by omega
    have hqn : ((⌊q⌋.toNat : ℕ) : ℚ) = ((⌊q⌋ : ℤ) : ℚ) := by
      exact_mod_cast congrArg (fun z : ℤ => (z : ℚ)) (Int.toNat_of_nonneg (by omega))
    constructor
    · have h2 : (2 : ℚ) ^ ((⌊q⌋.toNat).log2 : ℕ) ≤ ((⌊q⌋.toNat : ℕ) : ℚ) := by
        exact_mod_cast Nat.log2_self_le hn0
      have h4 : ((⌊q⌋ : ℤ) : ℚ) ≤ q := Int.floor_le q
      rw [zpow_natCast]
      linarith [hqn ▸ h2]
    · have h2 : ((⌊q⌋.toNat : ℕ) : ℚ) + 1 ≤ (2 : ℚ) ^ ((⌊q⌋.toNat).log2 + 1 : ℕ) := by
        exact_mod_cast @Nat.lt_log2_self ⌊q⌋.toNat
      have h4 : q < ((⌊q⌋ : ℤ) : ℚ) + 1 := Int.lt_floor_add_one q
      rw [show ((Nat.log2 ⌊q⌋.toNat : ℤ) + 1) = (((⌊q⌋.toNat).log2 + 1 : ℕ) : ℤ) by
        push_cast; ring]
      rw [zpow_natCast]
      linarith [hqn ▸ h2]
  · rw [if_neg h1]
    push_neg at h1
    have hinv : 1 < 1 / q := by rw [lt_div_iff₀ hq]; linarith
    have hfl : (1 : ℤ) ≤ ⌊1 / q⌋ := by
      exact_mod_cast Int.le_floor.mpr (by exact_mod_cast hinv.le)
    have hn0 : (⌊1 / q⌋.toNat) ≠ 0 := by omega
    have hqn : ((⌊1 / q⌋.toNat : ℕ) : ℚ) = ((⌊1 / q⌋ : ℤ) : ℚ) := by
      exact_mod_cast congrArg (fun z : ℤ => (z : ℚ)) (Int.toNat_of_nonneg (by omega))
    have hlo : (2 : ℚ) ^ ((⌊1 / q⌋.toNat).log2 : ℕ) ≤ 1 / q := by
      have h2 : (2 : ℚ) ^ ((⌊1 / q⌋.toNat).log2 : ℕ) ≤ ((⌊1 / q⌋.toNat : ℕ) : ℚ) := by
        exact_mod_cast Nat.log2_self_le hn0
      have h4 : ((⌊1 / q⌋ : ℤ) : ℚ) ≤ 1 / q := Int.floor_le _
      linarith [hqn ▸ h2]
    have hhi : 1 / q < (2 : ℚ) ^ (((⌊1 / q⌋.toNat).log2 + 1 : ℕ)) := by
      have h2 : ((⌊1 / q⌋.toNat : ℕ) : ℚ) + 1 ≤ (2 : ℚ) ^ ((⌊1 / q⌋.toNat).log2 + 1 : ℕ) := by
        exact_mod_cast @Nat.lt_log2_self ⌊1 / q⌋.toNat
      have h4 : 1 / q < ((⌊1 / q⌋ : ℤ) : ℚ) + 1 := Int.lt_floor_add_one _
      linarith [hqn ▸ h2]
    have hqlo : q ≤ (2 : ℚ) ^ (-((⌊1 / q⌋.toNat).log2 : ℤ)) := by
      rw [zpow_neg, zpow_natCast]
      rw [le_inv_comm₀ hq (by positivity)]
      calc (2 : ℚ) ^ (⌊1 / q⌋.toNat).log2 ≤ 1 / q := hlo
        _ = q⁻¹ := one_div q
    have hqhi : (2 : ℚ) ^ (-((⌊1 / q⌋.toNat).log2 : ℤ) - 1) < q := by
      rw [show (-((⌊1 / q⌋.toNat).log2 : ℤ) - 1) =
          -(((⌊1 / q⌋.toNat).log2 + 1 : ℕ) : ℤ) by push_cast; ring]
      rw [zpow_neg, zpow_natCast]
      rw [inv_lt_comm₀ (by positivity) hq]
      calc q⁻¹ = 1 / q := (one_div q).symm
        _ < (2 : ℚ) ^ (((⌊1 / q⌋.toNat).log2 + 1 : ℕ)) := hhi
    by_cases hcond : (2 : ℚ) ^ (-((Nat.log2 ⌊1 / q⌋.toNat : ℤ))) ≤ q
    · rw [if_pos hcond]
      refine ⟨hcond, ?_⟩
      have hstep : (2 : ℚ) ^ (-((⌊1 / q⌋.toNat).log2 : ℤ)) <
          (2 : ℚ) ^ (-((⌊1 / q⌋.toNat).log2 : ℤ) + 1) := by
        rw [zpow_add_one₀ two_ne_zero]
        nlinarith [zpow_pos (show (0 : ℚ) < 2 by norm_num) (-((⌊1 / q⌋.toNat).log2 : ℤ))]
      linarith
    · rw [if_neg hcond]
      push_neg at hcond
      refine ⟨hqhi.le, ?_⟩
      rw [show (-((Nat.log2 ⌊1 / q⌋.toNat : ℤ)) - 1 + 1) =
          -((Nat.log2 ⌊1 / q⌋.toNat : ℤ)) by ring]
      exact hcond

theorem ratLog2_unique (q : ℚ) (e : ℤ) (hq : 0 < q)
    (h1 : (2 : ℚ) ^ e ≤ q) (h2 : q < (2 : ℚ) ^ (e + 1)) : ratLog2 q = e := by
  have hs := ratLog2_spec q hq
  by_contra hne
  rcases lt_or_gt_of_ne hne with h | h
  · have hmono : (2 : ℚ) ^ (ratLog2 q + 1) ≤ (2 : ℚ) ^ e :=
      zpow_le_zpow_right₀ one_le_two (by omega)
    linarith [hs.2]
  · have hmono : (2 : ℚ) ^ (e + 1) ≤ (2 : ℚ) ^ ratLog2 q :=
      zpow_le_zpow_right₀ one_le_two (by omega)
    linarith [hs.1]

theorem f32RoundPos_ge_pow2 (q : ℚ) (hq : 0 < q) (he : -126 ≤ ratLog2 q) :
    (2 : ℚ) ^ ratLog2 q ≤ f32RoundPos q := by
  have hs := (ratLog2_spec q hq).1
  unfold f32RoundPos
  rw [if_neg (by omega)]
  have hp : (0 : ℚ) < (2 : ℚ) ^ (23 - ratLog2 q) := by positivity
  have h23 : (2 : ℚ) ^ (23 : ℤ) ≤ q * (2 : ℚ) ^ (23 - ratLog2 q) := by
    calc (2 : ℚ) ^ (23 : ℤ) = (2 : ℚ) ^ ratLog2 q * (2 : ℚ) ^ (23 - ratLog2 q) := by
          rw [← zpow_add₀ two_ne_zero]
          ring_nf
      _ ≤ q * (2 : ℚ) ^ (23 - ratLog2 q) := mul_le_mul_of_nonneg_right hs hp.le
  have hfl : (2 ^ 23 : ℤ) ≤ ⌊q * (2 : ℚ) ^ (23 - ratLog2 q)⌋ := by
    apply Int.le_floor.mpr
    calc ((2 ^ 23 : ℤ) : ℚ) = (2 : ℚ) ^ (23 : ℤ) := by norm_num
      _ ≤ _ := h23
  have hrnd : (2 ^ 23 : ℤ) ≤ roundHalfEven (q * (2 : ℚ) ^ (23 - ratLog2 q)) :=
    le_trans hfl (roundHalfEven_ge_floor _)
  have hrndq : ((2 ^ 23 : ℤ) : ℚ) ≤
      ((roundHalfEven (q * (2 : ℚ) ^ (23 - ratLog2 q)) : ℤ) : ℚ) := by exact_mod_cast hrnd
  have hp2 : (0 : ℚ) < (2 : ℚ) ^ (ratLog2 q - 23) := by positivity
  calc (2 : ℚ) ^ ratLog2 q = (2 : ℚ) ^ (23 : ℤ) * (2 : ℚ) ^ (ratLog2 q - 23) := by
        rw [← zpow_add₀ two_ne_zero]
        ring_nf
    _ ≤ ((roundHalfEven (q * (2 : ℚ) ^ (23 - ratLog2 q)) : ℤ) : ℚ) *
        (2 : ℚ) ^ (ratLog2 q - 23) := by
        apply mul_le_mul_of_nonneg_right _ hp2.le
        calc (2 : ℚ) ^ (23 : ℤ) = ((2 ^ 23 : ℤ) : ℚ) := by norm_num
          _ ≤ _ := hrndq

theorem f32RoundPos_ge_32768 (q : ℚ) (h : 32768 ≤ q) : 32768 ≤ f32RoundPos q := by
  have hq : (0 : ℚ) < q := lt_of_lt_of_le (by norm_num) h
  have hs := ratLog2_spec q hq
  have he : 15 ≤ ratLog2 q := by
    by_contra hlt
    have hmono : (2 : ℚ) ^ (ratLog2 q + 1) ≤ (2 : ℚ) ^ (15 : ℤ) :=
      zpow_le_zpow_right₀ one_le_two (by omega)
    have h15 : (2 : ℚ) ^ (15 : ℤ) = 32768 := by norm_num
    linarith [hs.2]
  have h2 := f32RoundPos_ge_pow2 q hq (by omega)
  have h3 : (2 : ℚ) ^ (15 : ℤ) ≤ (2 : ℚ) ^ ratLog2 q :=
    zpow_le_zpow_right₀ one_le_two he
  have h15 : (2 : ℚ) ^ (15 : ℤ) = 32768 := by norm_num
  linarith

theorem f32RoundPos_ge_32767 (q : ℚ) (h : 32767 ≤ q) : 32767 ≤ f32RoundPos q := by
  have hq : (0 : ℚ) < q := lt_of_lt_of_le (by norm_num) h
  have hs := ratLog2_spec q hq
  rcases le_or_lt 15 (ratLog2 q) with he | he
  · have h2 := f32RoundPos_ge_pow2 q hq (by omega)
    have h3 : (2 : ℚ) ^ (15 : ℤ) ≤ (2 : ℚ) ^ ratLog2 q :=
      zpow_le_zpow_right₀ one_le_two he
    have h15 : (2 : ℚ) ^ (15 : ℤ) = 32768 := by norm_num
    linarith
  · have he14 : ratLog2 q = 14 := by
      by_contra hne
      have hmono : (2 : ℚ) ^ (ratLog2 q + 1) ≤ (2 : ℚ) ^ (14 : ℤ) :=
        zpow_le_zpow_right₀ one_le_two (by omega)
      have h14 : (2 : ℚ) ^ (14 : ℤ) = 16384 := by norm_num
      linarith [hs.2]
    unfold f32RoundPos
    rw [he14, if_neg (by norm_num)]
    have h512 : (2 : ℚ) ^ ((23 : ℤ) - 14) = 512 := by norm_num
    have hfl : (16776704 : ℤ) ≤ ⌊q * (2 : ℚ) ^ ((23 : ℤ) - 14)⌋ := by
      apply Int.le_floor.mpr
      rw [h512]
      push_cast
      nlinarith
    have hrnd : (16776704 : ℤ) ≤ roundHalfEven (q * (2 : ℚ) ^ ((23 : ℤ) - 14)) :=
      le_trans hfl (roundHalfEven_ge_floor _)
    have hrndq : (16776704 : ℚ) ≤
        ((roundHalfEven (q * (2 : ℚ) ^ ((23 : ℤ) - 14)) : ℤ) : ℚ) := by exact_mod_cast hrnd
    have hinv : (2 : ℚ) ^ ((14 : ℤ) - 23) = 1 / 512 := by norm_num
    rw [hinv]
    calc (32767 : ℚ) = 16776704 * (1 / 512) := by norm_num
      _ ≤ ((roundHalfEven (q * (2 : ℚ) ^ ((23 : ℤ) - 14)) : ℤ) : ℚ) * (1 / 512) :=
          mul_le_mul_of_nonneg_right hrndq (by norm_num)

theorem ratTrunc_32767 : ratTrunc (32767 : ℚ) = 32767 := by
  rw [ratTrunc, if_pos (by norm_num),
    show ((32767 : ℚ)) = ((32767 : ℤ) : ℚ) by norm_num, Int.floor_intCast]

theorem ratTrunc_neg32768 : ratTrunc (-32768 : ℚ) = -32768 := by
  rw [ratTrunc, if_neg (by norm_num),
    show ((-32768 : ℚ)) = ((-32768 : ℤ) : ℚ) by norm_num, Int.ceil_intCast]

theorem ratTrunc_le_neg32767 (y : ℚ) (h : y ≤ -32767) : ratTrunc y ≤ -32767 := by
  rw [ratTrunc, if_neg (by linarith)]
  exact Int.ceil_le.mpr (by exact_mod_cast h)

/-- The saturating cast applied after the clamp of a finite value is the
truncation of the clamped value: the saturation is a no-op there. -/
theorem asI16_clampPcm_finite (x : ℚ) :
    (F32.clampPcm (F32.finite x)).asI16 = ratTrunc (max (-32768) (min x 32767)) := by
  have h1 : (-32768 : ℚ) ≤ max (-32768) (min x 32767) := le_max_left _ _
  have h2 : max (-32768 : ℚ) (min x 32767) ≤ 32767 :=
    max_le (by norm_num) (min_le_right _ _)
  simp only [F32.clampPcm, F32.asI16]
  rw [min_eq_left (ratTrunc_le_of_le _ h2), max_eq_right (ratTrunc_ge_of_ge _ h1)]

theorem asI16_range (v : F32) : -32768 ≤ v.asI16 ∧ v.asI16 ≤ 32767 := by
  cases v with
  | nan => exact ⟨by norm_num [F32.asI16], by norm_num [F32.asI16]⟩
  | posInf => exact ⟨by norm_num [F32.asI16], by norm_num [F32.asI16]⟩
  | negInf => exact ⟨by norm_num [F32.asI16], by norm_num [F32.asI16]⟩
  | finite x =>
      simp only [F32.asI16]
      exact ⟨le_max_left _ _, max_le (by norm_num) (min_le_right _ _)⟩

theorem clampPcm_asI16_posInf : (F32.clampPcm F32.posInf).asI16 = 32767 := by
  show (F32.finite (32767 : ℚ)).asI16 = 32767
  simp only [F32.asI16]
  rw [ratTrunc_32767]
  decide

theorem clampPcm_asI16_negInf : (F32.clampPcm F32.negInf).asI16 = -32768 := by
  show (F32.finite (-32768 : ℚ)).asI16 = -32768
  simp only [F32.asI16]
  rw [ratTrunc_neg32768]
  decide

/-- C2, counterexample: the sample -(65537/65536), an exactly
representable f32 just below -1.  Its f32 product with 32767 rounds to
-32767.5, which the clamp leaves unchanged and the truncating cast sends
to -32767, not to the claimed -32768. -/
theorem sample_below_neg_one_not_min :
    ((-(65537 / 65536) : ℚ) < -1) ∧
      sampleToI16 (F32.finite (-(65537 / 65536))) ≠ -32768 := by
  refine ⟨by norm_num, ?_⟩
  have hdef : sampleToI16 (F32.finite (-(65537 / 65536))) =
      (F32.clampPcm (f32Round ((-(65537 / 65536)) * 32767))).asI16 := rfl
  have hprod : ((-(65537 / 65536) : ℚ)) * 32767 = -(2147450879 / 65536) := by norm_num
  have hlog : ratLog2 (2147450879 / 65536 : ℚ) = 14 :=
    ratLog2_unique _ 14 (by norm_num) (by norm_num) (by norm_num)
  have hfloor : ⌊(2147450879 / 128 : ℚ)⌋ = 16776959 := by
    rw [Int.floor_eq_iff]
    constructor
    · push_cast
      norm_num
    · push_cast
      norm_num
  have hrhe : roundHalfEven (2147450879 / 128 : ℚ) = 16776960 := by
    rw [roundHalfEven, hfloor, if_neg (by push_cast; norm_num),
      if_pos (by push_cast; norm_num)]
    norm_num
  have hscaled : (2147450879 / 65536 : ℚ) * (2 : ℚ) ^ ((23 : ℤ) - 14) =
      2147450879 / 128 := by norm_num
  have hpos1 : f32RoundPos (2147450879 / 65536 : ℚ) = 65535 / 2 := by
    rw [f32RoundPos, hlog, if_neg (by norm_num), hscaled, hrhe]
    push_cast
    norm_num
  have hround : f32Round (-(2147450879 / 65536) : ℚ) = F32.finite (-(65535 / 2)) := by
    rw [f32Round, if_neg (by norm_num), if_neg (by norm_num),
      show (-(-(2147450879 / 65536 : ℚ))) = (2147450879 / 65536 : ℚ) by norm_num,
      hpos1, if_neg (by norm_num [maxF32])]
  have hval : sampleToI16 (F32.finite (-(65537 / 65536))) = -32767 := by
    rw [hdef, hprod, hround, asI16_clampPcm_finite,
      min_eq_left (by norm_num), max_eq_right (by norm_num),
      ratTrunc, if_neg (by norm_num)]
    rw [Int.ceil_eq_iff]
    constructor
    · push_cast
      norm_num
    · push_cast
      norm_num
  rw [hval]
  decide

/-- C2, amended: a sample above 1 encodes to 32767; a sample at or below
-32768/32767 encodes to -32768; any sample below -1 encodes to -32768 or
-32767; the encoded value always lies in [-32768, 32767], so there is
never overflow wraparound. -/
theorem sample_clamp_saturation (q : ℚ) :
    (1 < q → sampleToI16 (F32.finite q) = 32767) ∧
    (q ≤ -32768 / 32767 → sampleToI16 (F32.finite q) = -32768) ∧
    (q < -1 → sampleToI16 (F32.finite q) = -32768 ∨
      sampleToI16 (F32.finite q) = -32767) ∧
    (-32768 ≤ sampleToI16 (F32.finite q) ∧ sampleToI16 (F32.finite q) ≤ 32767) := by
  have hdef : sampleToI16 (F32.finite q) =
      (F32.clampPcm (f32Round (q * 32767))).asI16 := rfl
  refine ⟨?_, ?_, ?_, ?_⟩
  · intro h
    have hx : (32767 : ℚ) ≤ q * 32767 := by nlinarith
    have hpos : (0 : ℚ) < q * 32767 := by nlinarith
    rw [hdef, f32Round, if_neg hpos.ne', if_pos hpos]
    by_cases hover : maxF32 < f32RoundPos (q * 32767)
    · rw [if_pos hover]
      exact clampPcm_asI16_posInf
    · rw [if_neg hover]
      have hr : (32767 : ℚ) ≤ f32RoundPos (q * 32767) := f32RoundPos_ge_32767 _ hx
      rw [asI16_clampPcm_finite, min_eq_right hr, max_eq_right (by norm_num),
        ratTrunc_32767]
  · intro h
    have hx : q * 32767 ≤ -32768 := by nlinarith
    have hneg : q * 32767 < 0 := by nlinarith
    rw [hdef, f32Round, if_neg hneg.ne, if_neg (not_lt.mpr hneg.le)]
    have hx2 : (32768 : ℚ) ≤ -(q * 32767) := by linarith
    by_cases hover : maxF32 < f32RoundPos (-(q * 32767))
    · rw [if_pos hover]
      exact clampPcm_asI16_negInf
    · rw [if_neg hover]
      have hr : (32768 : ℚ) ≤ f32RoundPos (-(q * 32767)) := f32RoundPos_ge_32768 _ hx2
      rw [asI16_clampPcm_finite, min_eq_left (by linarith),
        max_eq_left (by linarith), ratTrunc_neg32768]
  · intro h
    have hx : q * 32767 < -32767 := by nlinarith
    have hneg : q * 32767 < 0 := by nlinarith
    rw [hdef, f32Round, if_neg hneg.ne, if_neg (not_lt.mpr hneg.le)]
    by_cases hover : maxF32 < f32RoundPos (-(q * 32767))
    · rw [if_pos hover]
      exact Or.inl clampPcm_asI16_negInf
    · rw [if_neg hover]
      have hr : (32767 : ℚ) ≤ f32RoundPos (-(q * 32767)) := f32RoundPos_ge_32767 _ (by linarith)
      rw [asI16_clampPcm_finite, min_eq_left (by linarith)]
      have hy1 : (-32768 : ℚ) ≤ max (-32768) (-(f32RoundPos (-(q * 32767)))) :=
        le_max_left _ _
      have hy2 : max (-32768 : ℚ) (-(f32RoundPos (-(q * 32767)))) ≤ -32767 :=
        max_le (by norm_num) (by linarith)
      have ht1 := ratTrunc_ge_of_ge _ hy1
      have ht2 := ratTrunc_le_neg32767 _ hy2
      omega
  · rw [hdef]
    exact asI16_range _

/-- C2, witness: the amended theorem applied at the concrete sample 2. -/
theorem sample_clamp_saturation_witness :
    (1 : ℚ) < 2 ∧ sampleToI16 (F32.finite 2) = 32767 :=
  ⟨one_lt_two, (sample_clamp_saturation 2).1 one_lt_two⟩

/-- Spec-side: "scale by 32767". -/
def spec_scaled (s : ℚ) : ℚ := s * 32767

/-- Spec-side: "clamp the scaled value to the representable 16-bit signed
integer range [-32768, 32767]". -/
def spec_clamped (x : ℚ) : ℚ := max (-32768) (min x 32767)

/-- Spec-side: "truncate to integer" after the exact scaling and the
clamp, as the claim words the algorithm. -/
def spec_pcm (s : ℚ) : ℤ := ratTrunc (spec_clamped (spec_scaled s))

/-- Spec-side: one little-endian 16-bit PCM frame per sample. -/
def spec_frame (s : ℚ) : List Nat := i16le (spec_pcm s)

/-- Spec-side: the concatenated PCM frames of the exact pipeline. -/
def spec_pcmData : List ℚ → List Nat
  | [] => []
  | s :: rest => spec_frame s ++ spec_pcmData rest

/-- The program's value at the sample 0.5 + 2^-16: its f32 product with
32767 is 16383.99998..., which the hardware multiply rounds up to
exactly 16384. -/
theorem sampleToI16_at_half_ulp :
    sampleToI16 (F32.finite (32769 / 65536)) = 16384 := by
  have hprod : ((32769 / 65536 : ℚ)) * 32767 = 1073741823 / 65536 := by norm_num
  have hlog : ratLog2 (1073741823 / 65536 : ℚ) = 13 :=
    ratLog2_unique _ 13 (by norm_num) (by norm_num) (by norm_num)
  have hfloor : ⌊(1073741823 / 64 : ℚ)⌋ = 16777215 := by
    rw [Int.floor_eq_iff]
    constructor
    · push_cast
      norm_num
    · push_cast
      norm_num
  have hrhe : roundHalfEven (1073741823 / 64 : ℚ) = 16777216 := by
    rw [roundHalfEven, hfloor, if_neg (by push_cast; norm_num),
      if_pos (by push_cast; norm_num)]
    norm_num
  have hscaled : (1073741823 / 65536 : ℚ) * (2 : ℚ) ^ ((23 : ℤ) - 13) =
      1073741823 / 64 := by norm_num
  have hpos1 : f32RoundPos (1073741823 / 65536 : ℚ) = 16384 := by
    rw [f32RoundPos, hlog, if_neg (by norm_num), hscaled, hrhe]
    push_cast
    norm_num
  have hround : f32Round (1073741823 / 65536 : ℚ) = F32.finite 16384 := by
    rw [f32Round, if_neg (by norm_num), if_pos (by norm_num), hpos1,
      if_neg (by norm_num [maxF32])]
  rw [show sampleToI16 (F32.finite (32769 / 65536)) =
      (F32.clampPcm (f32Round ((32769 / 65536 : ℚ) * 32767))).asI16 from rfl,
    hprod, hround, asI16_clampPcm_finite, min_eq_left (by norm_num),
    max_eq_right (by norm_num), ratTrunc, if_pos (by norm_num),
    show ((16384 : ℚ)) = ((16384 : ℤ) : ℚ) by norm_num, Int.floor_intCast]

/-- The exact pipeline's value at the same sample: the exact product
16383.99998... is left alone by the clamp and truncates to 16383. -/
theorem spec_pcm_at_half_ulp : spec_pcm (32769 / 65536) = 16383 := by
  rw [spec_pcm, spec_clamped, spec_scaled,
    show ((32769 / 65536 : ℚ)) * 32767 = 1073741823 / 65536 by norm_num,
    min_eq_left (by norm_num), max_eq_right (by norm_num),
    ratTrunc, if_pos (by norm_num)]
  rw [Int.floor_eq_iff]
  constructor
  · push_cast
    norm_num
  · push_cast
    norm_num

/-- C3, counterexample: at the sample 0.5 + 2^-16 the program emits the
frame of 16384 (the f32 multiply rounds the product up) while the exact
scale-clamp-truncate pipeline of the claim gives 16383, so the encoded
bytes differ from the claimed ones. -/
theorem encode_wav_spec_exact_counterexample :
    sampleToI16 (F32.finite (32769 / 65536)) = 16384 ∧
    spec_pcm (32769 / 65536) = 16383 ∧
    encode_wav ([(32769 : ℚ) / 65536].map F32.finite) ≠
      Except.ok (wavHeader ([(32769 : ℚ) / 65536].length) ++
        spec_pcmData [(32769 : ℚ) / 65536]) := by
  refine ⟨sampleToI16_at_half_ulp, spec_pcm_at_half_ulp, ?_⟩
  intro hcontra
  have hL : encode_wav ([(32769 : ℚ) / 65536].map F32.finite) =
      Except.ok (wavHeader 1 ++ (i16le 16384 ++ [])) := by
    simp only [List.map_cons, List.map_nil, encode_wav, pcmData,
      List.length_cons, List.length_nil]
    rw [sampleToI16_at_half_ulp]
  have hR : spec_pcmData [(32769 : ℚ) / 65536] = i16le 16383 ++ [] := by
    simp only [spec_pcmData, spec_frame]
    rw [spec_pcm_at_half_ulp]
  rw [hL, hR, List.length_cons, List.length_nil] at hcontra
  exact absurd (Except.ok.inj hcontra) (by decide)

/-- The scale step of the algorithm as the program performs it: the
exact product rounded to the nearest f32. -/
def spec_scaledR (s : ℚ) : F32 := f32Round (spec_scaled s)

/-- The per-sample value of the rounded pipeline: rounded scale, clamp
(infinities clamp to the bounds), truncate toward zero. -/
def spec_pcmR (s : ℚ) : ℤ :=
  match spec_scaledR s with
  | F32.nan => 0
  | F32.posInf => 32767
  | F32.negInf => -32768
  | F32.finite x => ratTrunc (spec_clamped x)

/-- One little-endian 16-bit frame of the rounded pipeline. -/
def spec_frameR (s : ℚ) : List Nat := i16le (spec_pcmR s)

/-- The concatenated frames of the rounded pipeline. -/
def spec_pcmDataR : List ℚ → List Nat
  | [] => []
  | s :: rest => spec_frameR s ++ spec_pcmDataR rest

/-- The program's per-sample computation is the rounded pipeline: the
saturating cast after the clamp adds nothing. -/
theorem sampleToI16_finite_eq_pcmR (q : ℚ) :
    sampleToI16 (F32.finite q) = spec_pcmR q := by
  show (F32.clampPcm (f32Round (q * 32767))).asI16 = spec_pcmR q
  unfold spec_pcmR spec_scaledR spec_scaled
  cases hf : f32Round (q * 32767) with
  | nan => rfl
  | posInf => exact clampPcm_asI16_posInf
  | negInf => exact clampPcm_asI16_negInf
  | finite x =>
      rw [asI16_clampPcm_finite]
      rfl

theorem pcmData_map_finiteR (qs : List ℚ) :
    pcmData (qs.map F32.finite) = spec_pcmDataR qs := by
  induction qs with
  | nil => rfl
  | cons q rest ih =>
      simp only [List.map_cons, pcmData, spec_pcmDataR, spec_frameR, ih,
        sampleToI16_finite_eq_pcmR]

/-- C3, amended: on every sample list, encode_wav produces the 44-byte
header followed by, per sample, the little-endian 16-bit frame of the
value obtained by scaling by 32767 in f32 arithmetic (round to nearest,
ties to even), clamping the scaled value to [-32768, 32767], and
truncating toward zero; the header carries 1 channel (offset 22), a
16000 Hz sample rate (offset 24) and 16 bits per sample (offset 34). -/
theorem encode_wav_matches_rounded_algorithm (qs : List ℚ) :
    encode_wav (qs.map F32.finite) =
      Except.ok (wavHeader qs.length ++ spec_pcmDataR qs) ∧
    (wavHeader qs.length).length = 44 ∧
    ((wavHeader qs.length).drop 22).take 2 = u16le 1 ∧
    ((wavHeader qs.length).drop 24).take 4 = u32le 16000 ∧
    ((wavHeader qs.length).drop 34).take 2 = u16le 16 := by
  refine ⟨?_, rfl, rfl, rfl, rfl⟩
  simp only [encode_wav, List.length_map, pcmData_map_finiteR]

theorem pcmData_append (a b : List F32) :
    pcmData (a ++ b) = pcmData a ++ pcmData b := by
  induction a with
  | nil => rfl
  | cons s rest ih => simp [pcmData, ih]

/-- C9: a NaN sample never makes encode_wav fail: NaN stays NaN through
the scaling and the clamp, the saturating cast maps it to 0, and the
emitted frame for it is the zero frame [0, 0]. -/
theorem encode_wav_nan_sample (pre post : List F32) :
    F32.scale32767 F32.nan = F32.nan ∧
    F32.clampPcm F32.nan = F32.nan ∧
    F32.asI16 F32.nan = 0 ∧
    encode_wav (pre ++ F32.nan :: post) =
      Except.ok (wavHeader (pre.length + (post.length + 1)) ++
        (pcmData pre ++ ([0, 0] ++ pcmData post))) := by
  refine ⟨rfl, rfl, rfl, ?_⟩
  have hlen : (pre ++ F32.nan :: post).length = pre.length + (post.length + 1) := by
    simp [List.length_append]
  have hdata : pcmData (pre ++ F32.nan :: post) =
      pcmData pre ++ ([0, 0] ++ pcmData post) := by
    rw [pcmData_append]
    rfl
  rw [encode_wav, hlen, hdata]

/-- JSON values, the target of the serde_json model. -/
inductive JsonVal where
  | null : JsonVal
  | bool : Bool → JsonVal
  | num : String → JsonVal
  | str : String → JsonVal
  | arr : List JsonVal → JsonVal
  | obj : List (String × JsonVal) → JsonVal

def lbraceChar : Char := Char.ofNat 123

def rbraceChar : Char := Char.ofNat 125

def isWsChar (c : Char) : Bool :=
  c = ' ' || c = '\n' || c = '\r' || c = '\t'

def skipWs (cs : List Char) : List Char :=
  cs.dropWhile isWsChar

def hexVal (c : Char) : Option Nat :=
  if '0' ≤ c ∧ c ≤ '9' then some (c.toNat - 48)
  else if 'a' ≤ c ∧ c ≤ 'f' then some (c.toNat - 87)
  else if 'A' ≤ c ∧ c ≤ 'F' then some (c.toNat - 55)
  else none

def hex4 : List Char → Option (Nat × List Char)
  | a :: b :: c :: d :: rest => do
    let va ← hexVal a
    let vb ← hexVal b
    let vc ← hexVal c
    let vd ← hexVal d
    some (va * 4096 + vb * 256 + vc * 16 + vd, rest)
  | _ => none

def escChar (e : Char) : Option Char :=
  if e = '"' then some '"'
  else if e = '\\' then some '\\'
  else if e = '/' then some '/'
  else if e = 'b' then some (Char.ofNat 8)
  else if e = 'f' then some (Char.ofNat 12)
  else if e = 'n' then some '\n'
  else if e = 'r' then some '\r'
  else if e = 't' then some '\t'
  else none

/-- Body of a JSON string after the opening quote: returns the decoded
characters and the remaining input.  Handles the JSON escapes including
\uXXXX with surrogate pairs; rejects lone surrogates and raw control
characters, as serde_json does. -/
def parseStringRest : Nat → List Char → Option (List Char × List Char)
  | 0, _ => none
  | fuel + 1, cs =>
    match cs with
    | [] => none
    | c :: rest =>
      if c = '"' then some ([], rest)
      else if c = '\\' then
        match rest with
        | [] => none
        | e :: rest2 =>
          if e = 'u' then
            match hex4 rest2 with
            | none => none
            | some (n, rest3) =>
              if 55296 ≤ n ∧ n ≤ 56319 then
                match rest3 with
                | '\\' :: 'u' :: rest4 =>
                  match hex4 rest4 with
                  | none => none
                  | some (m, rest5) =>
                    if 56320 ≤ m ∧ m ≤ 57343 then
                      match parseStringRest fuel rest5 with
                      | none => none
                      | some (s, r) =>
                        some (Char.ofNat (65536 + (n - 55296) * 1024 + (m - 56320)) :: s, r)
                    else none
                | _ => none
              else if 56320 ≤ n ∧ n ≤ 57343 then none
              else
                match parseStringRest fuel rest3 with
                | none => none
                | some (s, r) => some (Char.ofNat n :: s, r)
          else
            match escChar e with
            | none => none
            | some ch =>
              match parseStringRest fuel rest2 with
              | none => none
              | some (s, r) => some (ch :: s, r)
      else if c.toNat < 32 then none
      else
        match parseStringRest fuel rest with
        | none => none
        | some (s, r) => some (c :: s, r)

def parseDigits1 (cs : List Char) : Option (List Char × List Char) :=
  let ds := cs.takeWhile Char.isDigit
  if ds.isEmpty then none else some (ds, cs.drop ds.length)

def parseIntDigits : List Char → Option (List Char × List Char)
  | '0' :: rest => some (['0'], rest)
  | cs => parseDigits1 cs

def parseFrac : List Char → Option (List Char × List Char)
  | '.' :: rest =>
    match parseDigits1 rest with
    | some (ds, r) => some ('.' :: ds, r)
    | none => none
  | cs => some ([], cs)

def parseExp : List Char → Option (List Char × List Char)
  | c :: rest =>
    if c = 'e' ∨ c = 'E' then
      match rest with
      | s :: rest2 =>
        if s = '+' ∨ s = '-' then
          match parseDigits1 rest2 with
          | some (ds, r) => some (c :: s :: ds, r)
          | none => none
        else
          match parseDigits1 rest with
          | some (ds, r) => some (c :: ds, r)
          | none => none
      | [] => none
    else some ([], c :: rest)
  | [] => some ([], [])

def parseNumberBody (cs : List Char) : Option (List Char × List Char) :=
  match cs with
  | '-' :: rest =>
    match parseIntDigits rest with
    | none => none
    | some (ip, cs2) =>
      match parseFrac cs2 with
      | none => none
      | some (fp, cs3) =>
        match parseExp cs3 with
        | none => none
        | some (ep, cs4) => some ('-' :: (ip ++ fp ++ ep), cs4)
  | _ =>
    match parseIntDigits cs with
    | none => none
    | some (ip, cs2) =>
      match parseFrac cs2 with
      | none => none
      | some (fp, cs3) =>
        match parseExp cs3 with
        | none => none
        | some (ep, cs4) => some (ip ++ fp ++ ep, cs4)

mutual

/-- Recursive-descent JSON value, fuel-indexed. -/
def parseValue : Nat → List Char → Option (JsonVal × List Char)
  | 0, _ => none
  | fuel + 1, cs =>
    match skipWs cs with
    | [] => none
    | c :: rest =>
      if c = 'n' then
        match rest with
        | 'u' :: 'l' :: 'l' :: r => some (JsonVal.null, r)
        | _ => none
      else if c = 't' then
        match rest with
        | 'r' :: 'u' :: 'e' :: r => some (JsonVal.bool true, r)
        | _ => none
      else if c = 'f' then
        match rest with
        | 'a' :: 'l' :: 's' :: 'e' :: r => some (JsonVal.bool false, r)
        | _ => none
      else if c = '"' then
        match parseStringRest (rest.length + 1) rest with
        | none => none
        | some (s, r) => some (JsonVal.str (String.mk s), r)
      else if c = '[' then
        match skipWs rest with
        | ']' :: r => some (JsonVal.arr [], r)
        | cs2 =>
          match parseElems fuel cs2 with
          | none => none
          | some (vs, r) => some (JsonVal.arr vs, r)
      else if c = lbraceChar then
        match skipWs rest with
        | d :: r =>
          if d = rbraceChar then some (JsonVal.obj [], r)
          else
            match parseMembers fuel (d :: r) with
            | none => none
            | some (ms, r2) => some (JsonVal.obj ms, r2)
        | [] => none
      else if c = '-' ∨ c.isDigit then
        match parseNumberBody (c :: rest) with
        | none => none
        | some (raw, r) => some (JsonVal.num (String.mk raw), r)
      else none

/-- Array elements after at least one element is required. -/
def parseElems : Nat → List Char → Option (List JsonVal × List Char)
  | 0, _ => none
  | fuel + 1, cs =>
    match parseValue fuel cs with
    | none => none
    | some (v, r1) =>
      match skipWs r1 with
      | ',' :: r2 =>
        match parseElems fuel r2 with
        | none => none
        | some (vs, r3) => some (v :: vs, r3)
      | ']' :: r2 => some ([v], r2)
      | _ => none

/-- Object members after at least one member is required. -/
def parseMembers : Nat → List Char → Option (List (String × JsonVal) × List Char)
  | 0, _ => none
  | fuel + 1, cs =>
    match skipWs cs with
    | '"' :: r0 =>
      match parseStringRest (r0.length + 1) r0 with
      | none => none
      | some (k, r1) =>
        match skipWs r1 with
        | ':' :: r2 =>
          match parseValue fuel r2 with
          | none => none
          | some (v, r3) =>
            match skipWs r3 with
            | c :: r4 =>
              if c = ',' then
                match parseMembers fuel r4 with
                | none => none
                | some (ms, r5) => some ((String.mk k, v) :: ms, r5)
              else if c = rbraceChar then some ([(String.mk k, v)], r4)
              else none
            | [] => none
        | _ => none
    | _ => none

end

/-- serde_json::from_str, value layer: a complete JSON value followed
only by whitespace. -/
def parseJsonText (s : String) : Option JsonVal :=
  match parseValue (4 * s.length + 8) s.toList with
  | some (j, rest) => if (skipWs rest).isEmpty then some j else none
  | none => none

def countKey (key : String) (fs : List (String × JsonVal)) : Nat :=
  (fs.filter (fun p => p.1 = key)).length

def lookupKey (key : String) (fs : List (String × JsonVal)) : Option JsonVal :=
  (fs.find? (fun p => p.1 = key)).map (fun p => p.2)

/-- serde model for Option<String>: null gives none, a string gives some,
anything else is a type error. -/
def deserOptString : JsonVal → Option (Option String)
  | JsonVal.null => some none
  | JsonVal.str s => some (some s)
  | _ => none

/-- serde model for ErrorDetail - message: Option<String>; deserialized
from a map, unknown fields ignored, duplicate known field is an error,
missing Option field defaults to none.  Result: the message field. -/
def deserErrorDetail : JsonVal → Option (Option String)
  | JsonVal.obj fs =>
    if 2 ≤ countKey "message" fs then none
    else
      match lookupKey "message" fs with
      | none => some none
      | some v => deserOptString v
  | _ => none

/-- serde model for ErrorResponse - error: Option<ErrorDetail>.
Result: the error field, carrying its message field. -/
def deserErrorResponse : JsonVal → Option (Option (Option String))
  | JsonVal.obj fs =>
    if 2 ≤ countKey "error" fs then none
    else
      match lookupKey "error" fs with
      | none => some none
      | some JsonVal.null => some none
      | some v =>
        match deserErrorDetail v with
        | none => none
        | some m => some (some m)
  | _ => none

/-- serde model for TranscriptionResponse - text: String (required). -/
def deserTranscription : JsonVal → Option String
  | JsonVal.obj fs =>
    if 2 ≤ countKey "text" fs then none
    else
      match lookupKey "text" fs with
      | some (JsonVal.str s) => some s
      | _ => none
  | _ => none

/-- reqwest renders a status in messages by its numeric code (followed by
the canonical reason phrase); the model keeps the numeric code. -/
def statusDisplay (status : Nat) : String := toString status

/-- StatusCode::is_success from the http crate: 200 up to 299. -/
def statusIsSuccess (status : Nat) : Bool :=
  200 ≤ status && status < 300

/-- The fallback reqwest text used when the error body cannot be read:
`unwrap_or_else(|_| "Failed to read error response".to_string())`. -/
def failedReadBodyText : String := "Failed to read error response"

/-- An HTTP response as the code consumes it: a status code and a body
that either reads as text or is unreadable (none). -/
structure HttpResponse where
  status : Nat
  body : Option String

/-- The raw-body error of the non-success branch. -/
def rawFailMsg (status : Nat) (error_text : String) : String :=
  "API request failed with status " ++ statusDisplay status ++ ": " ++ error_text

/-- The nested extraction of the non-success branch (source lines
146-152): from_str as ErrorResponse, then its error field, then its
message field; any miss falls through to none. -/
def errMessageOf (error_text : String) : Option String :=
  match parseJsonText error_text with
  | some j =>
    match deserErrorResponse j with
    | some er =>
      match er with
      | some detail =>
        match detail with
        | some message => some message
        | none => none
      | none => none
    | none => none
  | none => none

/-- The success branch parse (source lines 161-165): response.json as
TranscriptionResponse, keeping its text field. -/
def transcriptionTextOf (t : String) : Option String :=
  match parseJsonText t with
  | some j => deserTranscription j
  | none => none

/-- The message of the ResponseParseError branch: the source formats the
reqwest decode error, whose display begins "error decoding response
body". -/
def parseFailMsg : String :=
  "Failed to parse API response: " ++ "error decoding response body"

/-- Response interpretation of transcribe_with_api (source lines 139-168):
on a non-success status, read the body text (placeholder when unreadable),
try the ErrorResponse JSON shape and use its nested message if present,
else report the raw body; on a success status, parse TranscriptionResponse
and return its text field, else a parse error. -/
def interpretResponse (response : HttpResponse) : Except String String :=
  if statusIsSuccess response.status = false then
    let error_text := response.body.getD failedReadBodyText
    match errMessageOf error_text with
    | some message =>
      Except.error ("API error (" ++ statusDisplay response.status ++ "): " ++ message)
    | none => Except.error (rawFailMsg response.status error_text)
  else
    match response.body with
    | none => Except.error parseFailMsg
    | some t =>
      match transcriptionTextOf t with
      | some text => Except.ok text
      | none => Except.error parseFailMsg

/-- `base_url.trim_end_matches('/')`: remove every trailing '/' char. -/
def trimEndSlashes (s : String) : String :=
  String.mk ((s.toList.reverse.dropWhile (fun c => c = '/')).reverse)

/-- The request URL of transcribe_with_api (source lines 94-95). -/
def requestUrl (base_url : String) : String :=
  trimEndSlashes base_url ++ "/audio/transcriptions"

/-- One part of the reqwest multipart form. -/
inductive FormPart where
  | filePart : String → List Nat → String → String → FormPart
  | textPart : String → String → FormPart
deriving DecidableEq

/-- The multipart form transcribe_with_api builds (source lines 104-122):
the WAV bytes as the `file` part with filename audio.wav and media type
audio/wav, the `model` text part, and the `language` text part exactly
when a language is supplied that is neither "auto" nor empty. -/
def mkForm (wav : List Nat) (model : String) (language : Option String) :
    List FormPart :=
  [FormPart.filePart "file" wav "audio.wav" "audio/wav",
   FormPart.textPart "model" model] ++
  (match language with
   | some lang =>
     if lang ≠ "auto" ∧ lang ≠ "" then [FormPart.textPart "language" lang] else []
   | none => [])

/-- HeaderValue::from_str accepts a byte iff it is ≥ 32 and ≠ 127, or is
the horizontal tab; at the char level of a UTF-8 string that is: tab, or
any char whose code is ≥ 32 and ≠ 127 (non-ASCII chars only contribute
bytes ≥ 128). -/
def isValidHeaderChar (c : Char) : Bool :=
  c = '\t' || (32 ≤ c.toNat && c.toNat ≠ 127)

/-- build_headers from the source: with a non-empty api_key, attach
`Authorization: Bearer <api_key>` when the value is a valid header value,
else fail; with an empty api_key, no header. -/
def build_headers (api_key : String) : Except String (Option String) :=
  if api_key.isEmpty then Except.ok none
  else
    if ("Bearer " ++ api_key).toList.all isValidHeaderChar then
      Except.ok (some ("Bearer " ++ api_key))
    else
      Except.error ("Invalid authorization header value: " ++
        "failed to parse header value")

/-- The single POST request transcribe_with_api hands to the transport:
URL, multipart form, and default headers (the optional Authorization
value). -/
structure ApiRequest where
  url : String
  form : List FormPart
  authHeader : Option String
deriving DecidableEq

/-- transcribe_with_api from the source.  The transport is an oracle from
the built request to either a transport failure message or an HTTP
response.  The second component collects every request handed to the
transport, so [] means no network activity. -/
def transcribe_with_api (audio : List F32) (api_key base_url model : String)
    (language : Option String)
    (net : ApiRequest → Except String HttpResponse) :
    Except String String × List ApiRequest :=
  if audio.isEmpty then
    (Except.error "No audio data provided", [])
  else if api_key.isEmpty then
    (Except.error "API key is required for transcription", [])
  else
    let url := requestUrl base_url
    match encode_wav audio with
    | Except.error e => (Except.error e, [])
    | Except.ok wav_data =>
      let form := mkForm wav_data model language
      match build_headers api_key with
      | Except.error e => (Except.error e, [])
      | Except.ok headers =>
        let req : ApiRequest := ⟨url, form, headers⟩
        match net req with
        | Except.error e => (Except.error ("HTTP request failed: " ++ e), [req])
        | Except.ok response => (interpretResponse response, [req])

/-- C4: with empty audio or an empty api_key, transcribe_with_api fails
with the corresponding input-validation error and hands no request to the
transport, whatever the other arguments and the network behave like. -/
theorem transcribe_input_validation (audio : List F32)
    (api_key base_url model : String) (language : Option String)
    (net : ApiRequest → Except String HttpResponse)
    (h : audio = [] ∨ api_key = "") :
    (transcribe_with_api audio api_key base_url model language net).2 = [] ∧
    ∃ e, (transcribe_with_api audio api_key base_url model language net).1 =
        Except.error e ∧
      (e = "No audio data provided" ∨
        e = "API key is required for transcription") := by
  rcases h with h | h
  · subst h
    exact ⟨rfl, "No audio data provided", rfl, Or.inl rfl⟩
  · subst h
    cases audio with
    | nil => exact ⟨rfl, "No audio data provided", rfl, Or.inl rfl⟩
    | cons a rest =>
        exact ⟨rfl, "API key is required for transcription", rfl, Or.inr rfl⟩

/-- A transport oracle that always fails; used to instantiate closed
statements about runs. -/
def constNet : ApiRequest → Except String HttpResponse :=
  fun _ => Except.error "connection refused"

/-- C4, witness: the theorem applied to empty audio and a non-empty key. -/
theorem transcribe_input_validation_witness :
    (([] : List F32) = [] ∨ "sk-key" = "") ∧
    ((transcribe_with_api [] "sk-key" "https://api.openai.com/v1" "whisper-1"
        none constNet).2 = [] ∧
     ∃ e, (transcribe_with_api [] "sk-key" "https://api.openai.com/v1" "whisper-1"
        none constNet).1 = Except.error e ∧
      (e = "No audio data provided" ∨
        e = "API key is required for transcription")) :=
  ⟨Or.inl rfl,
   transcribe_input_validation [] "sk-key" "https://api.openai.com/v1" "whisper-1"
     none constNet (Or.inl rfl)⟩

/-- C10: with both the audio and the api_key empty, the audio check comes
first: the result is the empty-audio error, and no request is sent. -/
theorem transcribe_empty_audio_precedence (base_url model : String)
    (language : Option String) (net : ApiRequest → Except String HttpResponse) :
    transcribe_with_api [] "" base_url model language net =
      (Except.error "No audio data provided", []) := rfl

/-- C5: the form transcribe_with_api builds contains a `language` text
part with value v exactly when the supplied language is v, v is
non-empty, and v is not "auto". -/
theorem transcribe_language_field_iff (wav : List Nat) (model : String)
    (language : Option String) (v : String) :
    FormPart.textPart "language" v ∈ mkForm wav model language ↔
      language = some v ∧ v ≠ "" ∧ v ≠ "auto" := by
  cases language with
  | none => simp [mkForm]
  | some lang =>
      by_cases h1 : lang = "auto"
      · subst h1
        simp +decide [mkForm]
        rintro rfl h
        rfl
      · by_cases h2 : lang = ""
        · subst h2
          simp +decide [mkForm, h1]
          rintro rfl h
          exact absurd rfl h
        · simp +decide [mkForm, h1, h2]
          constructor
          · rintro rfl
            exact ⟨rfl, h2, h1⟩
          · rintro ⟨rfl, hv2, hv1⟩
            rfl

/-- C5, witness: language "es" yields a `language` part with value "es". -/
theorem transcribe_language_field_iff_witness :
    FormPart.textPart "language" "es" ∈ mkForm [] "whisper-1" (some "es") :=
  (transcribe_language_field_iff [] "whisper-1" (some "es") "es").mpr
    ⟨rfl, by decide, by decide⟩

theorem trimEndSlashes_append_slash (s : String) :
    trimEndSlashes (s ++ "/") = trimEndSlashes s := by
  unfold trimEndSlashes
  have h : (s ++ "/").toList = s.toList ++ ['/'] := String.data_append s "/"
  rw [h, List.reverse_append]
  simp [List.dropWhile]

/-- C6: the request URL is the base URL with every trailing '/' removed,
followed by "/audio/transcriptions"; appending a trailing slash to the
base URL does not change the request URL; and the trimmed base URL is the
original minus some run of trailing slashes. -/
theorem transcribe_url_normalization (s : String) :
    requestUrl s = trimEndSlashes s ++ "/audio/transcriptions" ∧
    requestUrl (s ++ "/") = requestUrl s ∧
    ∃ k, s = trimEndSlashes s ++ String.mk (List.replicate k '/') := by
  refine ⟨rfl, ?_, ?_⟩
  · unfold requestUrl
    rw [trimEndSlashes_append_slash]
  · refine ⟨(s.toList.reverse.takeWhile (fun c => c = '/')).length, ?_⟩
    have hsplit : s.toList.reverse.takeWhile (fun c => c = '/') ++
        s.toList.reverse.dropWhile (fun c => c = '/') = s.toList.reverse :=
      List.takeWhile_append_dropWhile _ _
    have hrep : (s.toList.reverse.takeWhile (fun c => c = '/')).reverse =
        List.replicate (s.toList.reverse.takeWhile (fun c => c = '/')).length '/' := by
      apply List.eq_replicate_iff.mpr
      refine ⟨by simp, ?_⟩
      intro b hb
      have hmem := List.mem_reverse.mp hb
      have hp := List.mem_takeWhile_imp hmem
      simpa using hp
    have hlist : s.toList =
        (s.toList.reverse.dropWhile (fun c => c = '/')).reverse ++
        List.replicate (s.toList.reverse.takeWhile (fun c => c = '/')).length '/' := by
      conv_lhs => rw [show s.toList = s.toList.reverse.reverse by simp, ← hsplit]
      rw [List.reverse_append, hrep]
    show s = String.mk _
    apply String.ext
    simpa [trimEndSlashes, String.data_append] using hlist

/-- C7: on any non-success status, the call fails; when the body text
(or the placeholder for an unreadable body) carries a nested error
message, the error holds the status and that message, otherwise it holds
the status and the raw body text. -/
theorem transcribe_error_status_interpretation (status : Nat)
    (body : Option String) (h : statusIsSuccess status = false) :
    (∀ msg, errMessageOf (body.getD failedReadBodyText) = some msg →
      interpretResponse ⟨status, body⟩ =
        Except.error ("API error (" ++ statusDisplay status ++ "): " ++ msg)) ∧
    (errMessageOf (body.getD failedReadBodyText) = none →
      interpretResponse ⟨status, body⟩ =
        Except.error ("API request failed with status " ++ statusDisplay status ++
          ": " ++ body.getD failedReadBodyText)) := by
  constructor
  · intro msg hmsg
    simp [interpretResponse, h, hmsg]
  · intro hnone
    simp [interpretResponse, h, hnone, rawFailMsg]

/-- A 401 error body with a nested message. -/
def sampleErrorBody : String := "\x7b\"error\":\x7b\"message\":\"invalid key\"\x7d\x7d"

/-- C7, witness: HTTP 401 with a JSON error body yields the status and
the nested message. -/
theorem transcribe_error_status_interpretation_witness :
    statusIsSuccess 401 = false ∧
    interpretResponse ⟨401, some sampleErrorBody⟩ =
      Except.error ("API error (" ++ statusDisplay 401 ++ "): " ++ "invalid key") :=
  ⟨rfl, (transcribe_error_status_interpretation 401 (some sampleErrorBody) rfl).1
      "invalid key" (by decide)⟩

/-- C8: on any success status, the call returns the text field verbatim
when the body deserializes as the TranscriptionResponse shape, and fails
with the ResponseParseError message otherwise (bad JSON shape or an
unreadable body alike). -/
theorem transcribe_success_status_interpretation (status : Nat)
    (body : Option String) (h : statusIsSuccess status = true) :
    (∀ t text, body = some t → transcriptionTextOf t = some text →
      interpretResponse ⟨status, body⟩ = Except.ok text) ∧
    (∀ t, body = some t → transcriptionTextOf t = none →
      interpretResponse ⟨status, body⟩ = Except.error parseFailMsg) ∧
    (body = none → interpretResponse ⟨status, body⟩ = Except.error parseFailMsg) := by
  refine ⟨?_, ?_, ?_⟩
  · intro t text hb ht
    subst hb
    simp [interpretResponse, h, ht]
  · intro t hb ht
    subst hb
    simp [interpretResponse, h, ht]
  · intro hb
    subst hb
    simp [interpretResponse, h]

/-- A 200 success body. -/
def sampleSuccessBody : String := "\x7b\"text\": \"hello world\"\x7d"

/-- C8, witness: HTTP 200 with a text body returns exactly that text. -/
theorem transcribe_success_status_interpretation_witness :
    statusIsSuccess 200 = true ∧
    interpretResponse ⟨200, some sampleSuccessBody⟩ = Except.ok "hello world" :=
  ⟨rfl, (transcribe_success_status_interpretation 200 (some sampleSuccessBody) rfl).1
      sampleSuccessBody "hello world" rfl (by decide)⟩
